import Mathlib

/- Verification development for the NNUE affine-transform layer
   (src/nnue/layers/affine_transform.h of the Stockfish variant under study).

   The file embeds, as executable Lean definitions, the layer's compile-time
   shape constants, its structural hash, its parameter-loading routine over an
   explicit byte-stream model, and its four forward-propagation kernels
   (portable scalar, AVX2, SSSE3, ARM NEON) at integer-lane granularity.
   Machine integers are modelled as mathematical integers with explicit
   two's-complement wraparound where the hardware wraps. -/

/-- Two's-complement wraparound of an integer into the signed 32-bit range,
modelling int32 arithmetic (SIMD epi32 lanes wrap; for the scalar C++ loop this
models the universal two's-complement behaviour of signed overflow). -/
def wrap32 (x : Int) : Int := (x + 2147483648) % 4294967296 - 2147483648

/-- Two's-complement wraparound into the signed 16-bit range (int16 lanes of
the NEON accumulation). -/
def wrap16 (x : Int) : Int := (x + 32768) % 65536 - 32768

/-- Signed saturation to the int16 range, as performed by the pairwise add
inside maddubs (_mm256_maddubs_epi16 / _mm_maddubs_epi16). -/
def sat16 (x : Int) : Int := if x < -32768 then -32768 else if 32767 < x then 32767 else x

/-- Value of a byte (0..255) reinterpreted as a signed int8, as the ARM kernel
does when it casts the uint8 input pointer to int8x8_t. -/
def sint8 (b : Int) : Int := if b < 128 then b else b - 256

/-- Modelled from the spec: CeilToMultiple from nnue_common.h (that header is
not among the provided sources); the spec describes the operation as rounding
n up to the next multiple of base. -/
def CeilToMultiple (n base : Nat) : Nat := (n + base - 1) / base * base

/-- Modelled from the spec: kMaxSimdWidth from nnue_common.h (not among the
provided sources). The widest vector register used by any kernel of
affine_transform.h is the 32-byte __m256i of the AVX2 path, and invariant I2 of
the spec requires the padded width to be a multiple of every supported vector
width, so the maximum SIMD width is 32 bytes. -/
def kMaxSimdWidth : Nat := 32

/-- Modelled from the spec: kCacheLineSize from nnue_common.h (not among the
provided sources); the usual 64-byte cache line, used only as the rounding
granularity of the per-stage scratch sub-buffer. -/
def kCacheLineSize : Nat := 64

namespace AffineTransform

/-- kPaddedInputDimensions = CeilToMultiple(kInputDimensions, kMaxSimdWidth)
(affine_transform.h lines 24-25). -/
def kPaddedInputDimensions (inputDims : Nat) : Nat :=
  CeilToMultiple inputDims kMaxSimdWidth

/-- kSelfBufferSize = CeilToMultiple(kOutputDimensions * sizeof(OutputType),
kCacheLineSize), with sizeof(std::int32_t) = 4 (lines 28-29). -/
def kSelfBufferSize (outputDims : Nat) : Nat :=
  CeilToMultiple (outputDims * 4) kCacheLineSize

/-- kBufferSize = PreviousLayer::kBufferSize + kSelfBufferSize (lines 32-33). -/
def kBufferSize (previousBufferSize outputDims : Nat) : Nat :=
  previousBufferSize + kSelfBufferSize outputDims

/-- GetHashValue (lines 36-42): start from 0xCC03DAE4, add kOutputDimensions,
xor in the upstream hash shifted right by 1, then xor in the upstream hash
shifted left by 31; all in uint32 arithmetic (explicit mod 2^32). -/
def GetHashValue (outputDims previousHash : Nat) : Nat :=
  let h0 := (0xCC03DAE4 + outputDims) % 4294967296
  let h1 := h0 ^^^ ((previousHash % 4294967296) / 2)
  let h2 := h1 ^^^ (((previousHash % 4294967296) * 2147483648) % 4294967296)
  h2

end AffineTransform

/-- The hash combination formula exactly as the spec writes it, with shift
operators on the 32-bit-truncated upstream hash: (0xCC03DAE4 + OutputDimensions)
XOR (upstream_hash >> 1) XOR (upstream_hash << 31), in 32-bit wraparound
arithmetic. -/
def specStructuralHash (outputDims previousHash : Nat) : Nat :=
  ((0xCC03DAE4 + outputDims) % 4294967296) ^^^
    ((previousHash % 4294967296) >>> 1) ^^^
    (((previousHash % 4294967296) <<< 31) % 4294967296)

/-- The combining map applied to the upstream hash inside GetHashValue:
u becomes (u >> 1) XOR (u << 31 mod 2^32); on 32-bit values this is a rotation
right by one bit. -/
def hashCombine (u : Nat) : Nat :=
  (u / 2) ^^^ ((u * 2147483648) % 4294967296)

lemma two_pow_32_eq : (2 : Nat) ^ 32 = 4294967296 := by norm_num

lemma two_pow_31_eq : (2 : Nat) ^ 31 = 2147483648 := by norm_num

/-- Auxiliary: xor with the 32nd-bit power acts as addition below it. -/
lemma xor_two_pow_31_eq_add (q : Nat) (h : q < 2147483648) :
    q ^^^ 2147483648 = 2147483648 + q := by
  have h31 : q < 2 ^ 31 := by rw [two_pow_31_eq]; exact h
  rw [show (2147483648 : Nat) = 2 ^ 31 by norm_num]
  apply Nat.eq_of_testBit_eq
  intro i
  rcases lt_trichotomy i 31 with hi | hi | hi
  · rw [Nat.testBit_xor, Nat.testBit_two_pow_of_ne (Nat.ne_of_gt hi),
      Nat.testBit_two_pow_add_gt hi]
    simp
  · subst hi
    rw [Nat.testBit_xor, Nat.testBit_two_pow_self,
      Nat.testBit_two_pow_add_eq, Nat.testBit_lt_two_pow h31]
    simp
  · have hq : q < 2 ^ i := lt_of_lt_of_le h31 (Nat.pow_le_pow_right (by norm_num) (le_of_lt hi))
    have hsum : 2 ^ 31 + q < 2 ^ i := by
      have : 2 ^ 31 + q < 2 ^ 32 := by
        rw [two_pow_32_eq]; omega
      exact lt_of_lt_of_le this (Nat.pow_le_pow_right (by norm_num) hi)
    rw [Nat.testBit_xor, Nat.testBit_two_pow_of_ne (Nat.ne_of_lt hi),
      Nat.testBit_lt_two_pow hq, Nat.testBit_lt_two_pow hsum]
    rfl

/-- The combining map, additively: it moves the low bit of u to the top. -/
lemma hashCombine_eq_add (u : Nat) (h : u < 4294967296) :
    hashCombine u = (u % 2) * 2147483648 + u / 2 := by
  unfold hashCombine
  have hq : u / 2 < 2147483648 := by omega
  rcases Nat.mod_two_eq_zero_or_one u with h2 | h2
  · have h0 : (u * 2147483648) % 4294967296 = 0 := by omega
    rw [h0, Nat.xor_zero, h2]
    omega
  · have h0 : (u * 2147483648) % 4294967296 = 2147483648 := by omega
    rw [h0, xor_two_pow_31_eq_add (u / 2) hq, h2]

/-- The combining map is injective on 32-bit values. -/
lemma hashCombine_injective (u v : Nat) (hu : u < 4294967296) (hv : v < 4294967296)
    (h : hashCombine u = hashCombine v) : u = v := by
  rw [hashCombine_eq_add u hu, hashCombine_eq_add v hv] at h
  have hu2 : u / 2 < 2147483648 := by omega
  have hv2 : v / 2 < 2147483648 := by omega
  have hum : u % 2 < 2 := Nat.mod_lt _ (by norm_num)
  have hvm : v % 2 < 2 := Nat.mod_lt _ (by norm_num)
  omega

lemma GetHashValue_as_xor (outputDims previousHash : Nat) :
    AffineTransform.GetHashValue outputDims previousHash =
      ((0xCC03DAE4 + outputDims) % 4294967296) ^^^ hashCombine (previousHash % 4294967296) := by
  show ((0xCC03DAE4 + outputDims) % 4294967296 ^^^ previousHash % 4294967296 / 2) ^^^
      previousHash % 4294967296 * 2147483648 % 4294967296 =
    (0xCC03DAE4 + outputDims) % 4294967296 ^^^
      (previousHash % 4294967296 / 2 ^^^ previousHash % 4294967296 * 2147483648 % 4294967296)
  rw [Nat.xor_assoc]

lemma GetHashValue_lt (outputDims previousHash : Nat) :
    AffineTransform.GetHashValue outputDims previousHash < 4294967296 := by
  unfold AffineTransform.GetHashValue
  have h0 : (0xCC03DAE4 + outputDims) % 4294967296 < 2 ^ 32 := by
    rw [two_pow_32_eq]; exact Nat.mod_lt _ (by norm_num)
  have h1 : (previousHash % 4294967296) / 2 < 2 ^ 32 := by
    rw [two_pow_32_eq]
    have := Nat.mod_lt previousHash (y := 4294967296) (by norm_num)
    omega
  have h2 : ((previousHash % 4294967296) * 2147483648) % 4294967296 < 2 ^ 32 := by
    rw [two_pow_32_eq]; exact Nat.mod_lt _ (by norm_num)
  have := Nat.xor_lt_two_pow (Nat.xor_lt_two_pow h0 h1) h2
  rw [two_pow_32_eq] at this
  exact this

/-- C4: GetHashValue equals, in 32-bit wraparound arithmetic, the spec formula
(0xCC03DAE4 + OutputDimensions) XOR (upstream_hash >> 1) XOR
(upstream_hash << 31); it is a pure function of the compile-time shape (the two
Nat arguments) and needs no loaded data, and its result is a 32-bit value. -/
theorem c4_hash_formula (outputDims previousHash : Nat) :
    AffineTransform.GetHashValue outputDims previousHash =
        specStructuralHash outputDims previousHash ∧
      AffineTransform.GetHashValue outputDims previousHash < 4294967296 := by
  constructor
  · rw [GetHashValue_as_xor]
    unfold specStructuralHash hashCombine
    rw [Nat.xor_assoc, Nat.shiftRight_eq_div_pow, Nat.shiftLeft_eq]
  · exact GetHashValue_lt outputDims previousHash

/-- C8: GetHashValue is deterministic (it is a pure function, so two
evaluations at the same shape agree); for a fixed upstream hash, distinct
32-bit OutputDimensions values give distinct hashes; and for fixed
OutputDimensions, distinct 32-bit upstream hashes give distinct hashes (the
combining map u XOR-composed from u >> 1 and u << 31 is injective on 32-bit
values). -/
theorem c8_hash_sensitivity :
    (∀ outputDims previousHash : Nat,
        AffineTransform.GetHashValue outputDims previousHash =
          AffineTransform.GetHashValue outputDims previousHash) ∧
      (∀ od1 od2 ph : Nat, od1 < 4294967296 → od2 < 4294967296 →
        AffineTransform.GetHashValue od1 ph = AffineTransform.GetHashValue od2 ph →
          od1 = od2) ∧
      (∀ od ph1 ph2 : Nat, ph1 < 4294967296 → ph2 < 4294967296 →
        AffineTransform.GetHashValue od ph1 = AffineTransform.GetHashValue od ph2 →
          ph1 = ph2) := by
  refine ⟨fun _ _ => rfl, ?_, ?_⟩
  · intro od1 od2 ph h1 h2 h
    rw [GetHashValue_as_xor, GetHashValue_as_xor] at h
    have := Nat.xor_left_inj.mp h
    omega
  · intro od ph1 ph2 h1 h2 h
    rw [GetHashValue_as_xor, GetHashValue_as_xor] at h
    have hc : hashCombine (ph1 % 4294967296) = hashCombine (ph2 % 4294967296) :=
      Nat.xor_right_inj.mp h
    have := hashCombine_injective (ph1 % 4294967296) (ph2 % 4294967296)
      (Nat.mod_lt _ (by norm_num)) (Nat.mod_lt _ (by norm_num)) hc
    omega

/-- C8 witness: the injectivity statements applied at concrete shapes. -/
theorem c8_hash_sensitivity_witness :
    (32 : Nat) < 4294967296 ∧ (64 : Nat) < 4294967296 ∧
      (AffineTransform.GetHashValue 32 7 = AffineTransform.GetHashValue 64 7 → (32 : Nat) = 64) := by
  exact ⟨by decide, by decide, fun h => c8_hash_sensitivity.2.1 32 64 7 (by decide) (by decide) h⟩

/-- If the rounding base is positive, CeilToMultiple rounds up: the result is
at least n. -/
lemma CeilToMultiple_le (n base : Nat) (h : 0 < base) : n ≤ CeilToMultiple n base := by
  unfold CeilToMultiple
  have hlt := Nat.lt_div_mul_add (a := n + base - 1) h
  omega

/-- CeilToMultiple returns a multiple of the base. -/
lemma CeilToMultiple_dvd (n base : Nat) : base ∣ CeilToMultiple n base := by
  unfold CeilToMultiple
  exact dvd_mul_left base ((n + base - 1) / base)

/-- C6: the compile-time buffer sizes satisfy kSelfBufferSize =
round_up(OutputDimensions * 4, cache line) and kBufferSize = upstream size +
kSelfBufferSize, and kPaddedInputDimensions rounds InputDimensions up to the
maximum SIMD width, hence is at least InputDimensions and is a multiple of
every vector width that divides the maximum SIMD width (invariant I2). -/
theorem c6_buffer_and_padding (inputDims outputDims previousBufferSize : Nat) :
    AffineTransform.kSelfBufferSize outputDims =
        CeilToMultiple (outputDims * 4) kCacheLineSize ∧
      AffineTransform.kBufferSize previousBufferSize outputDims =
        previousBufferSize + AffineTransform.kSelfBufferSize outputDims ∧
      kCacheLineSize ∣ AffineTransform.kSelfBufferSize outputDims ∧
      outputDims * 4 ≤ AffineTransform.kSelfBufferSize outputDims ∧
      AffineTransform.kPaddedInputDimensions inputDims =
        CeilToMultiple inputDims kMaxSimdWidth ∧
      inputDims ≤ AffineTransform.kPaddedInputDimensions inputDims ∧
      kMaxSimdWidth ∣ AffineTransform.kPaddedInputDimensions inputDims ∧
      (∀ w : Nat, w ∣ kMaxSimdWidth →
        w ∣ AffineTransform.kPaddedInputDimensions inputDims) := by
  refine ⟨rfl, rfl, ?_, ?_, rfl, ?_, ?_, ?_⟩
  · exact CeilToMultiple_dvd (outputDims * 4) kCacheLineSize
  · exact CeilToMultiple_le (outputDims * 4) kCacheLineSize (by norm_num [kCacheLineSize])
  · exact CeilToMultiple_le inputDims kMaxSimdWidth (by norm_num [kMaxSimdWidth])
  · exact CeilToMultiple_dvd inputDims kMaxSimdWidth
  · intro w hw
    exact dvd_trans hw (CeilToMultiple_dvd inputDims kMaxSimdWidth)

/-- C6 witness: the divisibility on a concrete shape (inputDims 40, the SSSE3
and ARM width 16 divides the padded width 64). -/
theorem c6_buffer_and_padding_witness :
    (16 : Nat) ∣ kMaxSimdWidth ∧
      (16 : Nat) ∣ AffineTransform.kPaddedInputDimensions 40 :=
  ⟨by decide, (c6_buffer_and_padding 40 8 0).2.2.2.2.2.2.2 16 (by decide)⟩

/-- Model of a std::istream byte source: the bytes not yet consumed, plus the
stream failure flag (failbit). -/
structure ByteStream where
  data : List Nat
  failed : Bool
deriving DecidableEq

/-- Model of istream::read(buffer, n): if the stream is already failed, the
read is a no-op; if n bytes are available they are extracted and overwrite the
first n bytes of the destination buffer; otherwise all remaining bytes are
extracted (overwriting that prefix of the destination) and the failure flag is
set. -/
def istreamRead (s : ByteStream) (buf : List Nat) (n : Nat) : ByteStream × List Nat :=
  if s.failed then (s, buf)
  else if n ≤ s.data.length then
    (⟨s.data.drop n, false⟩, s.data.take n ++ buf.drop n)
  else
    (⟨[], true⟩, s.data ++ buf.drop s.data.length)

/-- The stored parameters of one affine stage, as raw bytes: the bias section
(kOutputDimensions * 4 bytes) and the weight section
(kOutputDimensions * kPaddedInputDimensions bytes, row-major). -/
structure AffineParams where
  biases : List Nat
  weights : List Nat
deriving DecidableEq

namespace AffineTransform

/-- ReadParameters (affine_transform.h lines 53-61): first recursively load the
upstream stage (modelled by the function prev, returning the advanced stream
and its success flag); if that fails return false at once; otherwise read the
bias bytes then the weight bytes with istream::read and return the negation of
the stream failure flag. -/
def ReadParameters (prev : ByteStream → ByteStream × Bool)
    (outputDims paddedInputDims : Nat) (st : AffineParams) (s : ByteStream) :
    AffineParams × ByteStream × Bool :=
  let r := prev s
  if r.2 then
    let rb := istreamRead r.1 st.biases (outputDims * 4)
    let rw2 := istreamRead rb.1 st.weights (outputDims * paddedInputDims)
    (⟨rb.2, rw2.2⟩, rw2.1, !rw2.1.failed)
  else (st, r.1, false)

end AffineTransform

/-- C3 counterexample: a stream two bytes long fails the bias read of a stage
with OutputDimensions = 1 (which needs 4 bias bytes), yet the two bytes that
were available have already overwritten the front of the stored bias section,
so the parameters do not retain their pre-call values. -/
theorem c3_counterexample :
    (AffineTransform.ReadParameters (fun s => (s, true)) 1 4
        ⟨[9, 9, 9, 9], [7, 7, 7, 7]⟩ ⟨[1, 2], false⟩).2.2 = false ∧
      (AffineTransform.ReadParameters (fun s => (s, true)) 1 4
        ⟨[9, 9, 9, 9], [7, 7, 7, 7]⟩ ⟨[1, 2], false⟩).1 ≠ ⟨[9, 9, 9, 9], [7, 7, 7, 7]⟩ := by
  decide

/-- C3 (amended): ReadParameters returns failure on any read shortfall or
stream error; when the upstream load fails, or the stream is already in the
failed state, the stored parameters are untouched; a shortfall inside this
stage's own sections still returns failure (though the bytes actually read
have overwritten a prefix of the stored parameters, see c3_counterexample). -/
theorem c3_failure_handling (O P : Nat) (prev : ByteStream → ByteStream × Bool)
    (st : AffineParams) (s : ByteStream) :
    ((prev s).2 = false →
      AffineTransform.ReadParameters prev O P st s = (st, (prev s).1, false)) ∧
      ((prev s).2 = true → (prev s).1.failed = true →
        AffineTransform.ReadParameters prev O P st s = (st, (prev s).1, false)) ∧
      ((prev s).2 = true → (prev s).1.failed = false →
        (prev s).1.data.length < O * 4 + O * P →
        (AffineTransform.ReadParameters prev O P st s).2.2 = false) := by
  refine ⟨?_, ?_, ?_⟩
  · intro hok
    simp [AffineTransform.ReadParameters, hok]
  · intro hok hf
    simp [AffineTransform.ReadParameters, istreamRead, hok, hf]
  · intro hok hf hlen
    by_cases h4 : O * 4 ≤ (prev s).1.data.length
    · have h5 : ¬ (O * P ≤ (prev s).1.data.length - O * 4) := by omega
      simp [AffineTransform.ReadParameters, istreamRead, hok, hf, h4, h5]
    · simp [AffineTransform.ReadParameters, istreamRead, hok, hf, h4]

/-- C3 witness: with an upstream loader that reports failure, the stage returns
failure and its parameters and stream are unchanged. -/
theorem c3_failure_handling_witness :
    ((fun (s : ByteStream) => (s, false)) ⟨[1, 2, 3], false⟩).2 = false ∧
      AffineTransform.ReadParameters (fun s => (s, false)) 1 4
          ⟨[9, 9, 9, 9], [7, 7, 7, 7]⟩ ⟨[1, 2, 3], false⟩ =
        (⟨[9, 9, 9, 9], [7, 7, 7, 7]⟩, ⟨[1, 2, 3], false⟩, false) :=
  ⟨rfl,
    (c3_failure_handling 1 4 (fun s => (s, false))
      ⟨[9, 9, 9, 9], [7, 7, 7, 7]⟩ ⟨[1, 2, 3], false⟩).1 rfl⟩

/-- C5: ReadParameters first runs the upstream load; only if it succeeds does
it read the bias section (OutputDimensions * 4 bytes) immediately followed by
the weight section (OutputDimensions * PaddedInputDimensions bytes), in that
byte order with no separators, consuming exactly those bytes from the stream;
if the upstream load fails, this stage's own sections are not attempted and
its state is unchanged. -/
theorem c5_load_order (O P : Nat) (prev : ByteStream → ByteStream × Bool)
    (st : AffineParams) (s : ByteStream)
    (hb : st.biases.length = O * 4) (hw : st.weights.length = O * P) :
    ((prev s).2 = true → (prev s).1.failed = false →
      O * 4 + O * P ≤ (prev s).1.data.length →
      AffineTransform.ReadParameters prev O P st s =
        (⟨(prev s).1.data.take (O * 4), ((prev s).1.data.drop (O * 4)).take (O * P)⟩,
          ⟨(prev s).1.data.drop (O * 4 + O * P), false⟩, true)) ∧
      ((prev s).2 = false →
        AffineTransform.ReadParameters prev O P st s = (st, (prev s).1, false)) := by
  constructor
  · intro hok hf hlen
    have hb0 : st.biases.drop (O * 4) = [] := by
      rw [← hb]; exact List.drop_length st.biases
    have hw0 : st.weights.drop (O * P) = [] := by
      rw [← hw]; exact List.drop_length st.weights
    have h4 : O * 4 ≤ (prev s).1.data.length := by omega
    have h5 : O * P ≤ (prev s).1.data.length - O * 4 := by omega
    simp [AffineTransform.ReadParameters, istreamRead, hok, hf, h4, h5, hb0, hw0,
      List.drop_drop]
  · intro hok
    simp [AffineTransform.ReadParameters, hok]

/-- C5 witness: a stream holding exactly the two sections of a stage with
OutputDimensions 1 and PaddedInputDimensions 4 is split into the 4 bias bytes
followed by the 4 weight bytes, and the load succeeds. -/
theorem c5_load_order_witness :
    ([0, 0, 0, 0] : List Nat).length = 1 * 4 ∧
      ([0, 0, 0, 0] : List Nat).length = 1 * 4 ∧
      AffineTransform.ReadParameters (fun s => (s, true)) 1 4
          ⟨[0, 0, 0, 0], [0, 0, 0, 0]⟩ ⟨[1, 2, 3, 4, 5, 6, 7, 8], false⟩ =
        (⟨[1, 2, 3, 4], [5, 6, 7, 8]⟩, ⟨[], false⟩, true) :=
  ⟨by decide, by decide,
    (c5_load_order 1 4 (fun s => (s, true)) ⟨[0, 0, 0, 0], [0, 0, 0, 0]⟩
      ⟨[1, 2, 3, 4, 5, 6, 7, 8], false⟩ (by decide) (by decide)).1 rfl rfl (by decide)⟩

/-- C10: ReadParameters performs no end-of-stream check: whenever the upstream
load succeeds and at least OutputDimensions * 4 + OutputDimensions *
PaddedInputDimensions further bytes are available, it returns success, leaving
any surplus trailing bytes unread in the stream. -/
theorem c10_no_eof_check (O P : Nat) (prev : ByteStream → ByteStream × Bool)
    (st : AffineParams) (s : ByteStream)
    (hok : (prev s).2 = true) (hf : (prev s).1.failed = false)
    (hlen : O * 4 + O * P ≤ (prev s).1.data.length) :
    (AffineTransform.ReadParameters prev O P st s).2.2 = true ∧
      (AffineTransform.ReadParameters prev O P st s).2.1.data =
        (prev s).1.data.drop (O * 4 + O * P) := by
  have h4 : O * 4 ≤ (prev s).1.data.length := by omega
  have h5 : O * P ≤ (prev s).1.data.length - O * 4 := by omega
  simp [AffineTransform.ReadParameters, istreamRead, hok, hf, h4, h5, List.drop_drop]

/-- C10 witness: with two surplus bytes after the sections of a (1, 4) stage,
the load still succeeds and the surplus remains unread. -/
theorem c10_no_eof_check_witness :
    1 * 4 + 1 * 4 ≤ ([1, 2, 3, 4, 5, 6, 7, 8, 9, 10] : List Nat).length ∧
      1 * 4 + 1 * 4 < ([1, 2, 3, 4, 5, 6, 7, 8, 9, 10] : List Nat).length ∧
      ((AffineTransform.ReadParameters (fun s => (s, true)) 1 4
          ⟨[0, 0, 0, 0], [0, 0, 0, 0]⟩ ⟨[1, 2, 3, 4, 5, 6, 7, 8, 9, 10], false⟩).2.2 = true ∧
        (AffineTransform.ReadParameters (fun s => (s, true)) 1 4
            ⟨[0, 0, 0, 0], [0, 0, 0, 0]⟩ ⟨[1, 2, 3, 4, 5, 6, 7, 8, 9, 10], false⟩).2.1.data =
          ([1, 2, 3, 4, 5, 6, 7, 8, 9, 10] : List Nat).drop (1 * 4 + 1 * 4)) :=
  ⟨by decide, by decide,
    c10_no_eof_check 1 4 (fun s => (s, true)) ⟨[0, 0, 0, 0], [0, 0, 0, 0]⟩
      ⟨[1, 2, 3, 4, 5, 6, 7, 8, 9, 10], false⟩ rfl rfl (by decide)⟩

namespace AffineTransform

/-- The portable scalar Propagate kernel, one output entry (affine_transform.h
lines 136-141): sum starts at biases_[i] and, for j below kInputDimensions,
accumulates weights_[i * kPaddedInputDimensions + j] * input[j] in int32
arithmetic. Arrays are modelled as index functions; input values are the
unsigned byte values 0..255 (uint8 promoted to int in the C source). -/
def PropagateScalarEntry (inputDims paddedDims : Nat) (weights : Nat → Int)
    (bias : Int) (input : Nat → Int) (i : Nat) : Int :=
  (List.range inputDims).foldl
    (fun sum j => wrap32 (sum + weights (i * paddedDims + j) * input j)) bias

/-- The scalar kernel again, with every array access through Option-returning
list indexing: the flat weight array, the bias vector and the padded input are
lists, and an index outside a list aborts the computation with none. -/
def PropagateScalarEntryChecked (inputDims paddedDims : Nat)
    (weights biases input : List Int) (i : Nat) : Option Int :=
  match biases[i]? with
  | none => none
  | some b =>
    (List.range inputDims).foldlM
      (fun sum j =>
        match weights[i * paddedDims + j]?, input[j]? with
        | some w, some x => some (wrap32 (sum + w * x))
        | _, _ => none) b

end AffineTransform

lemma wrap32_idem (x : Int) (h1 : -2147483648 ≤ x) (h2 : x < 2147483648) :
    wrap32 x = x := by
  unfold wrap32; omega

lemma wrap32_wrap_left (a b : Int) : wrap32 (wrap32 a + b) = wrap32 (a + b) := by
  unfold wrap32; omega

lemma wrap32_bounds (x : Int) : -2147483648 ≤ wrap32 x ∧ wrap32 x < 2147483648 := by
  unfold wrap32
  constructor <;> omega

/-- Folding wrap32-saturated additions over an index range equals the single
wrap of the exact sum, provided the start value is already in int32 range. -/
lemma foldl_wrap32_add (f : Nat → Int) (init : Int) (h1 : -2147483648 ≤ init)
    (h2 : init < 2147483648) (n : Nat) :
    (List.range n).foldl (fun s j => wrap32 (s + f j)) init =
      wrap32 (init + ∑ j ∈ Finset.range n, f j) := by
  induction n with
  | zero =>
    rw [List.range_zero, List.foldl_nil, Finset.sum_range_zero, add_zero,
      wrap32_idem init h1 h2]
  | succ n ih =>
    rw [List.range_succ, List.foldl_append, ih, List.foldl_cons, List.foldl_nil,
      Finset.sum_range_succ, wrap32_wrap_left, add_assoc]

/-- A sum over the padded index range equals the sum over the true range when
the summand vanishes on the padding. -/
lemma sum_range_eq_of_padding (f : Nat → Int) (n P : Nat) (h : n ≤ P)
    (hz : ∀ j, n ≤ j → j < P → f j = 0) :
    ∑ j ∈ Finset.range P, f j = ∑ j ∈ Finset.range n, f j := by
  rw [show P = n + (P - n) by omega, Finset.sum_range_add]
  have h0 : ∑ j ∈ Finset.range (P - n), f (n + j) = 0 := by
    apply Finset.sum_eq_zero
    intro j hj
    rw [Finset.mem_range] at hj
    exact hz (n + j) (by omega) (by omega)
  rw [h0, add_zero]

lemma inputDims_le_padded (inputDims : Nat) :
    inputDims ≤ AffineTransform.kPaddedInputDimensions inputDims :=
  CeilToMultiple_le inputDims kMaxSimdWidth (by norm_num [kMaxSimdWidth])

/-- C2: under invariant I1 (zero weight padding in row i and zero input
padding) and the spec's caller precondition that the exact accumulated value
fits in int32, the scalar Propagate entry equals
bias + sum over the padded range of weight * input, which equals the same sum
over the true input range; with all-zero weights and inputs it is exactly the
bias. -/
theorem c2_scalar_affine (inputDims : Nat) (weights : Nat → Int) (bias : Int)
    (input : Nat → Int) (i : Nat)
    (_hwpad : ∀ j, inputDims ≤ j → j < AffineTransform.kPaddedInputDimensions inputDims →
      weights (i * AffineTransform.kPaddedInputDimensions inputDims + j) = 0)
    (hxpad : ∀ j, inputDims ≤ j → j < AffineTransform.kPaddedInputDimensions inputDims →
      input j = 0)
    (hblo : -2147483648 ≤ bias) (hbhi : bias < 2147483648)
    (hlo : -2147483648 ≤ bias + ∑ j ∈ Finset.range inputDims,
      weights (i * AffineTransform.kPaddedInputDimensions inputDims + j) * input j)
    (hhi : bias + ∑ j ∈ Finset.range inputDims,
      weights (i * AffineTransform.kPaddedInputDimensions inputDims + j) * input j
        < 2147483648) :
    AffineTransform.PropagateScalarEntry inputDims
        (AffineTransform.kPaddedInputDimensions inputDims) weights bias input i =
      bias + ∑ j ∈ Finset.range (AffineTransform.kPaddedInputDimensions inputDims),
        weights (i * AffineTransform.kPaddedInputDimensions inputDims + j) * input j ∧
    AffineTransform.PropagateScalarEntry inputDims
        (AffineTransform.kPaddedInputDimensions inputDims) weights bias input i =
      bias + ∑ j ∈ Finset.range inputDims,
        weights (i * AffineTransform.kPaddedInputDimensions inputDims + j) * input j ∧
    ((∀ j, j < inputDims →
        weights (i * AffineTransform.kPaddedInputDimensions inputDims + j) = 0) →
      AffineTransform.PropagateScalarEntry inputDims
        (AffineTransform.kPaddedInputDimensions inputDims) weights bias input i = bias) := by
  have hpadsum : ∑ j ∈ Finset.range (AffineTransform.kPaddedInputDimensions inputDims),
      weights (i * AffineTransform.kPaddedInputDimensions inputDims + j) * input j =
      ∑ j ∈ Finset.range inputDims,
        weights (i * AffineTransform.kPaddedInputDimensions inputDims + j) * input j := by
    apply sum_range_eq_of_padding _ _ _ (inputDims_le_padded inputDims)
    intro j h1 h2
    rw [hxpad j h1 h2, mul_zero]
  have hmain : AffineTransform.PropagateScalarEntry inputDims
      (AffineTransform.kPaddedInputDimensions inputDims) weights bias input i =
      bias + ∑ j ∈ Finset.range inputDims,
        weights (i * AffineTransform.kPaddedInputDimensions inputDims + j) * input j := by
    unfold AffineTransform.PropagateScalarEntry
    rw [foldl_wrap32_add _ bias hblo hbhi, wrap32_idem _ hlo hhi]
  refine ⟨?_, hmain, ?_⟩
  · rw [hpadsum]; exact hmain
  · intro hw0
    rw [hmain]
    have h0 : ∑ j ∈ Finset.range inputDims,
        weights (i * AffineTransform.kPaddedInputDimensions inputDims + j) * input j = 0 := by
      apply Finset.sum_eq_zero
      intro j hj
      rw [Finset.mem_range] at hj
      rw [hw0 j hj, zero_mul]
    rw [h0, add_zero]

/-- C2 witness: with all-zero weights and input, an 8-input stage (padded to
32, a non-multiple case) returns exactly its bias 5. -/
theorem c2_scalar_affine_witness :
    (-2147483648 : Int) ≤ 5 ∧ (5 : Int) < 2147483648 ∧
      AffineTransform.PropagateScalarEntry 8
        (AffineTransform.kPaddedInputDimensions 8) (fun _ => 0) 5 (fun _ => 0) 0 = 5 := by
  refine ⟨by decide, by decide, ?_⟩
  have h := c2_scalar_affine 8 (fun _ => 0) 5 (fun _ => 0) 0
    (fun j h1 h2 => rfl) (fun j h1 h2 => rfl) (by decide) (by decide)
    (by simp) (by simp)
  exact h.2.2 (fun j hj => rfl)

lemma getD_of_lt (l : List Int) (n : Nat) (h : n < l.length) :
    l[n]? = some (l.getD n 0) := by
  rw [List.getD_eq_getElem?_getD, List.getElem?_eq_getElem h]
  rfl

/-- The checked scalar fold never goes out of bounds and computes the same
value as the total scalar fold, for any prefix of the true input range. -/
lemma foldlM_checked_eq (paddedDims : Nat) (weights input : List Int)
    (i O : Nat) (hi : i < O) (hwl : weights.length = O * paddedDims)
    (hxl : input.length = paddedDims) :
    ∀ n, n ≤ paddedDims → ∀ b : Int,
      (List.range n).foldlM
        (fun sum j =>
          match weights[i * paddedDims + j]?, input[j]? with
          | some w, some x => some (wrap32 (sum + w * x))
          | _, _ => none) b =
      some ((List.range n).foldl
        (fun sum j =>
          wrap32 (sum + weights.getD (i * paddedDims + j) 0 * input.getD j 0)) b) := by
  intro n
  induction n with
  | zero => intro hn b; rfl
  | succ n ih =>
    intro hn b
    have hidx : i * paddedDims + n < O * paddedDims := by
      have h1 : i * paddedDims + n < (i + 1) * paddedDims := by
        rw [add_mul, one_mul]; omega
      have h2 : (i + 1) * paddedDims ≤ O * paddedDims :=
        Nat.mul_le_mul_right _ hi
      omega
    rw [List.range_succ, List.foldlM_append, List.foldl_append,
      ih (by omega) b]
    rw [List.foldl_cons, List.foldl_nil]
    simp only [Option.bind_eq_bind, Option.some_bind, List.foldlM_cons, List.foldlM_nil]
    rw [getD_of_lt weights _ (by omega), getD_of_lt input _ (by omega)]
    rfl

/-- C9: in the scalar Propagate path every access is in bounds: for i below
OutputDimensions, every weight index i * kPaddedInputDimensions + j with
j below kInputDimensions is below OutputDimensions * kPaddedInputDimensions,
and the fully checked (Option-indexed) scalar kernel returns some value,
namely the value of the total scalar kernel on the default-extended arrays. -/
theorem c9_scalar_in_bounds (inputDims O : Nat) (weights biases input : List Int)
    (i : Nat)
    (hwl : weights.length = O * AffineTransform.kPaddedInputDimensions inputDims)
    (hbl : biases.length = O)
    (hxl : input.length = AffineTransform.kPaddedInputDimensions inputDims)
    (hi : i < O) :
    (∀ j, j < inputDims →
      i * AffineTransform.kPaddedInputDimensions inputDims + j <
        O * AffineTransform.kPaddedInputDimensions inputDims) ∧
      AffineTransform.PropagateScalarEntryChecked inputDims
          (AffineTransform.kPaddedInputDimensions inputDims) weights biases input i =
        some (AffineTransform.PropagateScalarEntry inputDims
          (AffineTransform.kPaddedInputDimensions inputDims)
          (fun t => weights.getD t 0) (biases.getD i 0) (fun j => input.getD j 0) i) := by
  have hpad := inputDims_le_padded inputDims
  constructor
  · intro j hj
    have h1 : i * AffineTransform.kPaddedInputDimensions inputDims + j <
        (i + 1) * AffineTransform.kPaddedInputDimensions inputDims := by
      rw [add_mul, one_mul]; omega
    have h2 : (i + 1) * AffineTransform.kPaddedInputDimensions inputDims ≤
        O * AffineTransform.kPaddedInputDimensions inputDims :=
      Nat.mul_le_mul_right _ hi
    omega
  · unfold AffineTransform.PropagateScalarEntryChecked
    rw [getD_of_lt biases i (by omega)]
    exact foldlM_checked_eq (AffineTransform.kPaddedInputDimensions inputDims)
      weights input i O hi hwl hxl inputDims hpad (biases.getD i 0)

/-- C9 witness: a concrete (OutputDimensions 1, InputDimensions 8) stage with
32-wide padded arrays runs the checked kernel fully in bounds. -/
theorem c9_scalar_in_bounds_witness :
    (List.replicate 32 (0 : Int)).length =
        1 * AffineTransform.kPaddedInputDimensions 8 ∧
      ([5] : List Int).length = 1 ∧
      (0 : Nat) < 1 ∧
      AffineTransform.PropagateScalarEntryChecked 8
          (AffineTransform.kPaddedInputDimensions 8)
          (List.replicate 32 (0 : Int)) [5] (List.replicate 32 (0 : Int)) 0 =
        some (AffineTransform.PropagateScalarEntry 8
          (AffineTransform.kPaddedInputDimensions 8)
          (fun t => (List.replicate 32 (0 : Int)).getD t 0)
          (([5] : List Int).getD 0 0)
          (fun j => (List.replicate 32 (0 : Int)).getD j 0) 0) :=
  ⟨by decide, by decide, by decide,
    (c9_scalar_in_bounds 8 1 (List.replicate 32 (0 : Int)) [5]
      (List.replicate 32 (0 : Int)) 0 (by decide) (by decide) (by decide) (by decide)).2⟩

namespace AffineTransform

/-- One int16 lane of _mm256_maddubs_epi16 / _mm_maddubs_epi16 applied to the
chunk of bytes starting at base: unsigned input bytes are multiplied with
signed weight bytes pairwise and adjacent products are added with signed
16-bit saturation. -/
def maddubsLane (input row : Nat → Int) (base k : Nat) : Int :=
  sat16 (input (base + 2 * k) * row (base + 2 * k) +
    input (base + 2 * k + 1) * row (base + 2 * k + 1))

/-- One int32 lane of _mm256_madd_epi16 / _mm_madd_epi16 of the maddubs result
against the all-ones vector kOnes: adjacent int16 lanes are added into an
int32 lane (which wraps, though these sums cannot leave int32 range). -/
def maddOnesLane (input row : Nat → Int) (base m : Nat) : Int :=
  wrap32 (maddubsLane input row base (2 * m) + maddubsLane input row base (2 * m + 1))

/-- Lane m of the 8-lane AVX2 int32 accumulator after all chunks
(affine_transform.h lines 89-106): the accumulator starts as
_mm256_set_epi32(0, ..., 0, biases_[i]) and adds the madd result of each
32-byte chunk (kSimdWidth is 32 under USE_AVX2, the byte width of __m256i)
with epi32 wraparound. -/
def avx2SumLane (input row : Nat → Int) (numChunks : Nat) (bias : Int) (m : Nat) : Int :=
  (List.range numChunks).foldl
    (fun s j => wrap32 (s + maddOnesLane input row (32 * j) m))
    (if m = 0 then bias else 0)

/-- _mm256_hadd_epi32 of two 8-lane vectors (used with equal arguments in
lines 107-108): pairwise sums, interleaved per 128-bit half. -/
def hadd256 (a b : Nat → Int) : Nat → Int := fun m =>
  match m with
  | 0 => wrap32 (a 0 + a 1)
  | 1 => wrap32 (a 2 + a 3)
  | 2 => wrap32 (b 0 + b 1)
  | 3 => wrap32 (b 2 + b 3)
  | 4 => wrap32 (a 4 + a 5)
  | 5 => wrap32 (a 6 + a 7)
  | 6 => wrap32 (b 4 + b 5)
  | 7 => wrap32 (b 6 + b 7)
  | _ => 0

/-- The AVX2 Propagate kernel, one output entry (lines 88-111): accumulate the
weight row against the input in 32-byte chunks, hadd twice, then add lane 0 of
the low and high 128-bit halves (lanes 0 and 4 of the 8-lane vector). -/
def PropagateAVX2Entry (paddedDims : Nat) (weights : Nat → Int) (bias : Int)
    (input : Nat → Int) (i : Nat) : Int :=
  let row : Nat → Int := fun t => weights (i * paddedDims + t)
  let s := avx2SumLane input row (paddedDims / 32) bias
  let s1 := hadd256 s s
  let s2 := hadd256 s1 s1
  wrap32 (s2 0 + s2 4)

/-- Lane m of the 4-lane SSSE3 int32 accumulator after all chunks (lines
114-121): _mm_cvtsi32_si128(biases_[i]) places the bias in lane 0; each chunk
covers 16 bytes (kSimdWidth is 16 under USE_SSSE3, the byte width of
__m128i). -/
def ssse3SumLane (input row : Nat → Int) (numChunks : Nat) (bias : Int) (m : Nat) : Int :=
  (List.range numChunks).foldl
    (fun s j => wrap32 (s + maddOnesLane input row (16 * j) m))
    (if m = 0 then bias else 0)

/-- _mm_hadd_epi32 of two 4-lane vectors (used with equal arguments in lines
122-123). -/
def hadd128 (a b : Nat → Int) : Nat → Int := fun m =>
  match m with
  | 0 => wrap32 (a 0 + a 1)
  | 1 => wrap32 (a 2 + a 3)
  | 2 => wrap32 (b 0 + b 1)
  | 3 => wrap32 (b 2 + b 3)
  | _ => 0

/-- The SSSE3 Propagate kernel, one output entry (lines 113-124): accumulate
in 16-byte chunks, hadd twice, extract lane 0. -/
def PropagateSSSE3Entry (paddedDims : Nat) (weights : Nat → Int) (bias : Int)
    (input : Nat → Int) (i : Nat) : Int :=
  let row : Nat → Int := fun t => weights (i * paddedDims + t)
  let s := ssse3SumLane input row (paddedDims / 16) bias
  let s1 := hadd128 s s
  let s2 := hadd128 s1 s1
  s2 0

/-- One int16 lane of the NEON product vector for the 16-byte chunk at base
(lines 129-132): vmull_s8 of the first 8 bytes, with every input byte
reinterpreted as a signed int8 by the int8x8_t cast, followed by vmlal_s8 of
the second 8 bytes, accumulating with int16 wraparound. -/
def armProductLane (input row : Nat → Int) (base t : Nat) : Int :=
  wrap16 (sint8 (input (base + t)) * row (base + t) +
    sint8 (input (base + (8 + t))) * row (base + (8 + t)))

/-- Lane m of the NEON int32x4 accumulator after all chunks (lines 127-133):
the accumulator starts as {biases_[i]} = {bias, 0, 0, 0}; vpadalq_s16 adds
each pair of adjacent int16 product lanes into the corresponding int32 lane;
each chunk covers 16 bytes (two int8x8_t vectors, kSimdWidth is 16 under
IS_ARM). -/
def armSumLane (input row : Nat → Int) (numChunks : Nat) (bias : Int) (m : Nat) : Int :=
  (List.range numChunks).foldl
    (fun s j => wrap32 (s + (armProductLane input row (16 * j) (2 * m) +
      armProductLane input row (16 * j) (2 * m + 1))))
    (if m = 0 then bias else 0)

/-- The ARM NEON Propagate kernel, one output entry (lines 126-134): the
output is sum[0] + sum[1] + sum[2] + sum[3] in int arithmetic. -/
def PropagateARMEntry (paddedDims : Nat) (weights : Nat → Int) (bias : Int)
    (input : Nat → Int) (i : Nat) : Int :=
  let row : Nat → Int := fun t => weights (i * paddedDims + t)
  let s := armSumLane input row (paddedDims / 16) bias
  wrap32 (wrap32 (wrap32 (s 0 + s 1) + s 2) + s 3)

end AffineTransform

lemma wrap16_idem (x : Int) (h1 : -32768 ≤ x) (h2 : x < 32768) : wrap16 x = x := by
  unfold wrap16; omega

lemma sint8_of_lt (b : Int) (h : b < 128) : sint8 b = b := by
  unfold sint8
  rw [if_pos h]

lemma sat16_bounds (x : Int) : -32768 ≤ sat16 x ∧ sat16 x ≤ 32767 := by
  unfold sat16
  split_ifs <;> omega

lemma sat16_of_bounds (x : Int) (h1 : -32768 ≤ x) (h2 : x ≤ 32767) : sat16 x = x := by
  unfold sat16
  split_ifs <;> omega

lemma prod_bounds (x w : Int) (hx0 : 0 ≤ x) (hx1 : x ≤ 127) (hw0 : -128 ≤ w)
    (hw1 : w ≤ 127) : -16256 ≤ x * w ∧ x * w ≤ 16129 := by
  constructor <;> nlinarith

/-- Collapsing the AVX2 hadd/hadd/extract chain over wrapped lane values into a
single wrap of the exact total. -/
lemma collapse8 (b S0 S1 S2 S3 S4 S5 S6 S7 : Int) :
    wrap32 (wrap32 (wrap32 (wrap32 (b + S0) + wrap32 (0 + S1)) +
        wrap32 (wrap32 (0 + S2) + wrap32 (0 + S3))) +
      wrap32 (wrap32 (wrap32 (0 + S4) + wrap32 (0 + S5)) +
        wrap32 (wrap32 (0 + S6) + wrap32 (0 + S7)))) =
    wrap32 (b + (S0 + S1 + S2 + S3 + S4 + S5 + S6 + S7)) := by
  unfold wrap32
  omega

/-- Collapsing the SSSE3 hadd/hadd/extract chain. -/
lemma collapse4_ssse3 (b S0 S1 S2 S3 : Int) :
    wrap32 (wrap32 (wrap32 (b + S0) + wrap32 (0 + S1)) +
      wrap32 (wrap32 (0 + S2) + wrap32 (0 + S3))) =
    wrap32 (b + (S0 + S1 + S2 + S3)) := by
  unfold wrap32
  omega

/-- Collapsing the ARM scalar lane addition chain. -/
lemma collapse4_arm (b S0 S1 S2 S3 : Int) :
    wrap32 (wrap32 (wrap32 (wrap32 (b + S0) + wrap32 (0 + S1)) + wrap32 (0 + S2)) +
      wrap32 (0 + S3)) =
    wrap32 (b + (S0 + S1 + S2 + S3)) := by
  unfold wrap32
  omega

namespace AffineTransform

/-- The saturated pairwise product at pair index t: the maddubs int16 lane
covering input bytes 2t and 2t+1 in absolute coordinates. -/
def satPair (input row : Nat → Int) (t : Nat) : Int :=
  sat16 (input (2 * t) * row (2 * t) + input (2 * t + 1) * row (2 * t + 1))

end AffineTransform

lemma maddubsLane32 (input row : Nat → Int) (j k : Nat) :
    AffineTransform.maddubsLane input row (32 * j) k =
      AffineTransform.satPair input row (16 * j + k) := by
  unfold AffineTransform.maddubsLane AffineTransform.satPair
  have e1 : 32 * j + 2 * k = 2 * (16 * j + k) := by ring
  rw [e1]

lemma maddubsLane16 (input row : Nat → Int) (j k : Nat) :
    AffineTransform.maddubsLane input row (16 * j) k =
      AffineTransform.satPair input row (8 * j + k) := by
  unfold AffineTransform.maddubsLane AffineTransform.satPair
  have e1 : 16 * j + 2 * k = 2 * (8 * j + k) := by ring
  rw [e1]

lemma maddubsLane_bounds (input row : Nat → Int) (base k : Nat) :
    -32768 ≤ AffineTransform.maddubsLane input row base k ∧
      AffineTransform.maddubsLane input row base k ≤ 32767 := by
  unfold AffineTransform.maddubsLane
  exact sat16_bounds _

/-- The int32 madd-with-ones lane never wraps: it is the plain sum of its two
saturated int16 lanes. -/
lemma maddOnesLane_eq (input row : Nat → Int) (base m : Nat) :
    AffineTransform.maddOnesLane input row base m =
      AffineTransform.maddubsLane input row base (2 * m) +
        AffineTransform.maddubsLane input row base (2 * m + 1) := by
  unfold AffineTransform.maddOnesLane
  have h1 := maddubsLane_bounds input row base (2 * m)
  have h2 := maddubsLane_bounds input row base (2 * m + 1)
  exact wrap32_idem _ (by omega) (by omega)

/-- Under the amended input range (activation bytes at most 127) and int8
weights, the maddubs lane never saturates. -/
lemma satPair_eq (input row : Nat → Int) (t : Nat)
    (hx1 : 0 ≤ input (2 * t)) (hx2 : input (2 * t) ≤ 127)
    (hx3 : 0 ≤ input (2 * t + 1)) (hx4 : input (2 * t + 1) ≤ 127)
    (hw1 : -128 ≤ row (2 * t)) (hw2 : row (2 * t) ≤ 127)
    (hw3 : -128 ≤ row (2 * t + 1)) (hw4 : row (2 * t + 1) ≤ 127) :
    AffineTransform.satPair input row t =
      input (2 * t) * row (2 * t) + input (2 * t + 1) * row (2 * t + 1) := by
  unfold AffineTransform.satPair
  have h1 := prod_bounds _ _ hx1 hx2 hw1 hw2
  have h2 := prod_bounds _ _ hx3 hx4 hw3 hw4
  exact sat16_of_bounds _ (by omega) (by omega)

/-- Splitting a sum over a product-sized range into blocks. -/
lemma sum_range_mul (f : Nat → Int) (n m : Nat) :
    ∑ t ∈ Finset.range (n * m), f t =
      ∑ j ∈ Finset.range n, ∑ u ∈ Finset.range m, f (m * j + u) := by
  induction n with
  | zero => simp
  | succ n ih =>
    rw [Nat.succ_mul, Finset.sum_range_add, ih, Finset.sum_range_succ]
    congr 1
    rw [Nat.mul_comm n m]

lemma avx2SumLane_eq (input row : Nat → Int) (nc : Nat) (bias : Int) (m : Nat)
    (hb1 : -2147483648 ≤ bias) (hb2 : bias < 2147483648) :
    AffineTransform.avx2SumLane input row nc bias m =
      wrap32 ((if m = 0 then bias else 0) +
        ∑ j ∈ Finset.range nc, AffineTransform.maddOnesLane input row (32 * j) m) := by
  unfold AffineTransform.avx2SumLane
  exact foldl_wrap32_add (fun j => AffineTransform.maddOnesLane input row (32 * j) m)
    (if m = 0 then bias else 0) (by split <;> omega) (by split <;> omega) nc

lemma ssse3SumLane_eq (input row : Nat → Int) (nc : Nat) (bias : Int) (m : Nat)
    (hb1 : -2147483648 ≤ bias) (hb2 : bias < 2147483648) :
    AffineTransform.ssse3SumLane input row nc bias m =
      wrap32 ((if m = 0 then bias else 0) +
        ∑ j ∈ Finset.range nc, AffineTransform.maddOnesLane input row (16 * j) m) := by
  unfold AffineTransform.ssse3SumLane
  exact foldl_wrap32_add (fun j => AffineTransform.maddOnesLane input row (16 * j) m)
    (if m = 0 then bias else 0) (by split <;> omega) (by split <;> omega) nc

lemma armSumLane_eq (input row : Nat → Int) (nc : Nat) (bias : Int) (m : Nat)
    (hb1 : -2147483648 ≤ bias) (hb2 : bias < 2147483648) :
    AffineTransform.armSumLane input row nc bias m =
      wrap32 ((if m = 0 then bias else 0) +
        ∑ j ∈ Finset.range nc, (AffineTransform.armProductLane input row (16 * j) (2 * m) +
          AffineTransform.armProductLane input row (16 * j) (2 * m + 1))) := by
  unfold AffineTransform.armSumLane
  exact foldl_wrap32_add
    (fun j => AffineTransform.armProductLane input row (16 * j) (2 * m) +
      AffineTransform.armProductLane input row (16 * j) (2 * m + 1))
    (if m = 0 then bias else 0) (by split <;> omega) (by split <;> omega) nc

/-- The AVX2 entry collapses, with no assumptions beyond the bias being an
int32, to a single wrap of bias + the sum of all saturated pairwise products
over the padded row. -/
lemma avx2_entry_satform (paddedDims : Nat) (weights : Nat → Int) (bias : Int)
    (input : Nat → Int) (i : Nat)
    (hb1 : -2147483648 ≤ bias) (hb2 : bias < 2147483648)
    (h32 : 32 ∣ paddedDims) :
    AffineTransform.PropagateAVX2Entry paddedDims weights bias input i =
      wrap32 (bias + ∑ t ∈ Finset.range (paddedDims / 2),
        AffineTransform.satPair input (fun u => weights (i * paddedDims + u)) t) := by
  obtain ⟨K, hK⟩ := h32
  simp only [AffineTransform.PropagateAVX2Entry, AffineTransform.hadd256]
  set row : Nat → Int := fun t => weights (i * paddedDims + t) with hrow
  rw [avx2SumLane_eq input row _ bias 0 hb1 hb2, avx2SumLane_eq input row _ bias 1 hb1 hb2,
    avx2SumLane_eq input row _ bias 2 hb1 hb2, avx2SumLane_eq input row _ bias 3 hb1 hb2,
    avx2SumLane_eq input row _ bias 4 hb1 hb2, avx2SumLane_eq input row _ bias 5 hb1 hb2,
    avx2SumLane_eq input row _ bias 6 hb1 hb2, avx2SumLane_eq input row _ bias 7 hb1 hb2]
  have i0 : (if (0 : Nat) = 0 then bias else (0 : Int)) = bias := if_pos rfl
  have i1 : (if (1 : Nat) = 0 then bias else (0 : Int)) = 0 := if_neg (by omega)
  have i2 : (if (2 : Nat) = 0 then bias else (0 : Int)) = 0 := if_neg (by omega)
  have i3 : (if (3 : Nat) = 0 then bias else (0 : Int)) = 0 := if_neg (by omega)
  have i4 : (if (4 : Nat) = 0 then bias else (0 : Int)) = 0 := if_neg (by omega)
  have i5 : (if (5 : Nat) = 0 then bias else (0 : Int)) = 0 := if_neg (by omega)
  have i6 : (if (6 : Nat) = 0 then bias else (0 : Int)) = 0 := if_neg (by omega)
  have i7 : (if (7 : Nat) = 0 then bias else (0 : Int)) = 0 := if_neg (by omega)
  rw [i0, i1, i2, i3, i4, i5, i6, i7, collapse8]
  congr 1
  congr 1
  have hS : ∀ m : Nat,
      (∑ j ∈ Finset.range (paddedDims / 32),
        AffineTransform.maddOnesLane input row (32 * j) m) =
      ∑ j ∈ Finset.range (paddedDims / 32),
        (AffineTransform.satPair input row (16 * j + 2 * m) +
          AffineTransform.satPair input row (16 * j + (2 * m + 1))) := by
    intro m
    refine Finset.sum_congr rfl fun j hj => ?_
    rw [maddOnesLane_eq, maddubsLane32, maddubsLane32]
  rw [hS 0, hS 1, hS 2, hS 3, hS 4, hS 5, hS 6, hS 7,
    ← Finset.sum_add_distrib, ← Finset.sum_add_distrib, ← Finset.sum_add_distrib,
    ← Finset.sum_add_distrib, ← Finset.sum_add_distrib, ← Finset.sum_add_distrib,
    ← Finset.sum_add_distrib]
  have hchunk : ∀ j ∈ Finset.range (paddedDims / 32),
      (AffineTransform.satPair input row (16 * j + 2 * 0) +
          AffineTransform.satPair input row (16 * j + (2 * 0 + 1)) +
        (AffineTransform.satPair input row (16 * j + 2 * 1) +
          AffineTransform.satPair input row (16 * j + (2 * 1 + 1))) +
        (AffineTransform.satPair input row (16 * j + 2 * 2) +
          AffineTransform.satPair input row (16 * j + (2 * 2 + 1))) +
        (AffineTransform.satPair input row (16 * j + 2 * 3) +
          AffineTransform.satPair input row (16 * j + (2 * 3 + 1))) +
        (AffineTransform.satPair input row (16 * j + 2 * 4) +
          AffineTransform.satPair input row (16 * j + (2 * 4 + 1))) +
        (AffineTransform.satPair input row (16 * j + 2 * 5) +
          AffineTransform.satPair input row (16 * j + (2 * 5 + 1))) +
        (AffineTransform.satPair input row (16 * j + 2 * 6) +
          AffineTransform.satPair input row (16 * j + (2 * 6 + 1))) +
        (AffineTransform.satPair input row (16 * j + 2 * 7) +
          AffineTransform.satPair input row (16 * j + (2 * 7 + 1)))) =
      ∑ u ∈ Finset.range 16, AffineTransform.satPair input row (16 * j + u) := by
    intro j hj
    simp [Finset.sum_range_succ]
    ring
  rw [Finset.sum_congr rfl hchunk, ← sum_range_mul]
  have hnc : paddedDims / 32 * 16 = paddedDims / 2 := by omega
  rw [hnc]

/-- The SSSE3 entry collapses to the same saturated-pair normal form as the
AVX2 entry. -/
lemma ssse3_entry_satform (paddedDims : Nat) (weights : Nat → Int) (bias : Int)
    (input : Nat → Int) (i : Nat)
    (hb1 : -2147483648 ≤ bias) (hb2 : bias < 2147483648)
    (h16 : 16 ∣ paddedDims) :
    AffineTransform.PropagateSSSE3Entry paddedDims weights bias input i =
      wrap32 (bias + ∑ t ∈ Finset.range (paddedDims / 2),
        AffineTransform.satPair input (fun u => weights (i * paddedDims + u)) t) := by
  obtain ⟨K, hK⟩ := h16
  simp only [AffineTransform.PropagateSSSE3Entry, AffineTransform.hadd128]
  set row : Nat → Int := fun t => weights (i * paddedDims + t) with hrow
  rw [ssse3SumLane_eq input row _ bias 0 hb1 hb2, ssse3SumLane_eq input row _ bias 1 hb1 hb2,
    ssse3SumLane_eq input row _ bias 2 hb1 hb2, ssse3SumLane_eq input row _ bias 3 hb1 hb2]
  have i0 : (if (0 : Nat) = 0 then bias else (0 : Int)) = bias := if_pos rfl
  have i1 : (if (1 : Nat) = 0 then bias else (0 : Int)) = 0 := if_neg (by omega)
  have i2 : (if (2 : Nat) = 0 then bias else (0 : Int)) = 0 := if_neg (by omega)
  have i3 : (if (3 : Nat) = 0 then bias else (0 : Int)) = 0 := if_neg (by omega)
  rw [i0, i1, i2, i3, collapse4_ssse3]
  congr 1
  congr 1
  have hS : ∀ m : Nat,
      (∑ j ∈ Finset.range (paddedDims / 16),
        AffineTransform.maddOnesLane input row (16 * j) m) =
      ∑ j ∈ Finset.range (paddedDims / 16),
        (AffineTransform.satPair input row (8 * j + 2 * m) +
          AffineTransform.satPair input row (8 * j + (2 * m + 1))) := by
    intro m
    refine Finset.sum_congr rfl fun j hj => ?_
    rw [maddOnesLane_eq, maddubsLane16, maddubsLane16]
  rw [hS 0, hS 1, hS 2, hS 3,
    ← Finset.sum_add_distrib, ← Finset.sum_add_distrib, ← Finset.sum_add_distrib]
  have hchunk : ∀ j ∈ Finset.range (paddedDims / 16),
      (AffineTransform.satPair input row (8 * j + 2 * 0) +
          AffineTransform.satPair input row (8 * j + (2 * 0 + 1)) +
        (AffineTransform.satPair input row (8 * j + 2 * 1) +
          AffineTransform.satPair input row (8 * j + (2 * 1 + 1))) +
        (AffineTransform.satPair input row (8 * j + 2 * 2) +
          AffineTransform.satPair input row (8 * j + (2 * 2 + 1))) +
        (AffineTransform.satPair input row (8 * j + 2 * 3) +
          AffineTransform.satPair input row (8 * j + (2 * 3 + 1)))) =
      ∑ u ∈ Finset.range 8, AffineTransform.satPair input row (8 * j + u) := by
    intro j hj
    simp [Finset.sum_range_succ]
    ring
  rw [Finset.sum_congr rfl hchunk, ← sum_range_mul]
  have hnc : paddedDims / 16 * 8 = paddedDims / 2 := by omega
  rw [hnc]

/-- With every activation byte at most 127 and int8 weights, no maddubs lane
saturates, and the saturated-pair sum is the exact dot product over the padded
row. -/
lemma satsum_eq_prodsum (paddedDims : Nat) (input row : Nat → Int)
    (h2 : 2 ∣ paddedDims)
    (hx : ∀ j, j < paddedDims → 0 ≤ input j ∧ input j ≤ 127)
    (hw : ∀ t, t < paddedDims → -128 ≤ row t ∧ row t ≤ 127) :
    ∑ t ∈ Finset.range (paddedDims / 2), AffineTransform.satPair input row t =
      ∑ j ∈ Finset.range paddedDims, input j * row j := by
  obtain ⟨K, hK⟩ := h2
  have h1 : ∑ t ∈ Finset.range (paddedDims / 2), AffineTransform.satPair input row t =
      ∑ t ∈ Finset.range (paddedDims / 2),
        (input (2 * t) * row (2 * t) + input (2 * t + 1) * row (2 * t + 1)) := by
    refine Finset.sum_congr rfl fun t ht => ?_
    rw [Finset.mem_range] at ht
    have e1 : 2 * t < paddedDims := by omega
    have e2 : 2 * t + 1 < paddedDims := by omega
    exact satPair_eq input row t (hx _ e1).1 (hx _ e1).2 (hx _ e2).1 (hx _ e2).2
      (hw _ e1).1 (hw _ e1).2 (hw _ e2).1 (hw _ e2).2
  rw [h1]
  have hP : paddedDims = paddedDims / 2 * 2 := by omega
  conv_rhs => rw [hP]
  rw [sum_range_mul]
  refine Finset.sum_congr rfl fun t ht => ?_
  simp [Finset.sum_range_succ]

/-- The scalar entry as a single wrap of the exact affine sum. -/
lemma scalar_entry_eq_sum (inputDims paddedDims : Nat) (weights : Nat → Int)
    (bias : Int) (input : Nat → Int) (i : Nat)
    (hb1 : -2147483648 ≤ bias) (hb2 : bias < 2147483648) :
    AffineTransform.PropagateScalarEntry inputDims paddedDims weights bias input i =
      wrap32 (bias + ∑ j ∈ Finset.range inputDims,
        weights (i * paddedDims + j) * input j) :=
  foldl_wrap32_add (fun j => weights (i * paddedDims + j) * input j) bias hb1 hb2 inputDims

/-- A NEON product lane, with activations at most 127: the signed
reinterpretation is the identity and the int16 accumulation cannot wrap, so
the lane is the exact sum of its two products. -/
lemma armProductLane_eq (input row : Nat → Int) (base t : Nat)
    (hx1 : 0 ≤ input (base + t)) (hx2 : input (base + t) ≤ 127)
    (hx3 : 0 ≤ input (base + (8 + t))) (hx4 : input (base + (8 + t)) ≤ 127)
    (hw1 : -128 ≤ row (base + t)) (hw2 : row (base + t) ≤ 127)
    (hw3 : -128 ≤ row (base + (8 + t))) (hw4 : row (base + (8 + t)) ≤ 127) :
    AffineTransform.armProductLane input row base t =
      input (base + t) * row (base + t) +
        input (base + (8 + t)) * row (base + (8 + t)) := by
  unfold AffineTransform.armProductLane
  rw [sint8_of_lt _ (by omega), sint8_of_lt _ (by omega)]
  have h1 := prod_bounds _ _ hx1 hx2 hw1 hw2
  have h2 := prod_bounds _ _ hx3 hx4 hw3 hw4
  exact wrap16_idem _ (by omega) (by omega)

/-- The ARM NEON entry equals a single wrap of the exact affine sum over the
padded row, when every activation byte is at most 127 and weights are int8. -/
lemma arm_entry_eq_sum (paddedDims : Nat) (weights : Nat → Int) (bias : Int)
    (input : Nat → Int) (i : Nat)
    (hb1 : -2147483648 ≤ bias) (hb2 : bias < 2147483648)
    (h16 : 16 ∣ paddedDims)
    (hx : ∀ j, j < paddedDims → 0 ≤ input j ∧ input j ≤ 127)
    (hw : ∀ t, t < paddedDims → -128 ≤ weights (i * paddedDims + t) ∧
      weights (i * paddedDims + t) ≤ 127) :
    AffineTransform.PropagateARMEntry paddedDims weights bias input i =
      wrap32 (bias + ∑ j ∈ Finset.range paddedDims,
        input j * weights (i * paddedDims + j)) := by
  obtain ⟨K, hK⟩ := h16
  simp only [AffineTransform.PropagateARMEntry]
  set row : Nat → Int := fun t => weights (i * paddedDims + t) with hrow
  have hw2 : ∀ t, t < paddedDims → -128 ≤ row t ∧ row t ≤ 127 := hw
  rw [armSumLane_eq input row _ bias 0 hb1 hb2, armSumLane_eq input row _ bias 1 hb1 hb2,
    armSumLane_eq input row _ bias 2 hb1 hb2, armSumLane_eq input row _ bias 3 hb1 hb2]
  have i0 : (if (0 : Nat) = 0 then bias else (0 : Int)) = bias := if_pos rfl
  have i1 : (if (1 : Nat) = 0 then bias else (0 : Int)) = 0 := if_neg (by omega)
  have i2 : (if (2 : Nat) = 0 then bias else (0 : Int)) = 0 := if_neg (by omega)
  have i3 : (if (3 : Nat) = 0 then bias else (0 : Int)) = 0 := if_neg (by omega)
  rw [i0, i1, i2, i3, collapse4_arm]
  congr 1
  congr 1
  rw [← Finset.sum_add_distrib, ← Finset.sum_add_distrib, ← Finset.sum_add_distrib]
  have hchunk : ∀ j ∈ Finset.range (paddedDims / 16),
      (AffineTransform.armProductLane input row (16 * j) (2 * 0) +
          AffineTransform.armProductLane input row (16 * j) (2 * 0 + 1) +
        (AffineTransform.armProductLane input row (16 * j) (2 * 1) +
          AffineTransform.armProductLane input row (16 * j) (2 * 1 + 1)) +
        (AffineTransform.armProductLane input row (16 * j) (2 * 2) +
          AffineTransform.armProductLane input row (16 * j) (2 * 2 + 1)) +
        (AffineTransform.armProductLane input row (16 * j) (2 * 3) +
          AffineTransform.armProductLane input row (16 * j) (2 * 3 + 1))) =
      ∑ u ∈ Finset.range 16, input (16 * j + u) * row (16 * j + u) := by
    intro j hj
    rw [Finset.mem_range] at hj
    have hb : ∀ t, t < 8 →
        AffineTransform.armProductLane input row (16 * j) t =
          input (16 * j + t) * row (16 * j + t) +
            input (16 * j + (8 + t)) * row (16 * j + (8 + t)) := by
      intro t ht
      have e1 : 16 * j + t < paddedDims := by omega
      have e2 : 16 * j + (8 + t) < paddedDims := by omega
      exact armProductLane_eq input row (16 * j) t
        (hx _ e1).1 (hx _ e1).2 (hx _ e2).1 (hx _ e2).2
        (hw2 _ e1).1 (hw2 _ e1).2 (hw2 _ e2).1 (hw2 _ e2).2
    rw [hb (2 * 0) (by norm_num), hb (2 * 0 + 1) (by norm_num),
      hb (2 * 1) (by norm_num), hb (2 * 1 + 1) (by norm_num),
      hb (2 * 2) (by norm_num), hb (2 * 2 + 1) (by norm_num),
      hb (2 * 3) (by norm_num), hb (2 * 3 + 1) (by norm_num)]
    simp [Finset.sum_range_succ]
    ring
  rw [Finset.sum_congr rfl hchunk,
    ← sum_range_mul (fun k => input k * row k) (paddedDims / 16) 16]
  have hnc : paddedDims / 16 * 16 = paddedDims := by omega
  rw [hnc]

set_option maxRecDepth 100000 in
/-- C1 counterexample: a fully valid input (unsigned bytes, here 255 in the
first two positions; int8 weights 127; zero bias; InputDimensions 32 equal to
the padded width, so padding is trivially zero) on which the AVX2 kernel does
not match the portable scalar loop: maddubs saturates 2 * 255 * 127 = 64770 to
32767 while the scalar loop returns 64770. -/
theorem c1_counterexample :
    (∀ j : Nat, j < 32 →
        (0 : Int) ≤ (fun t => if t < 2 then (255 : Int) else 0) j ∧
          (fun t => if t < 2 then (255 : Int) else 0) j ≤ 255) ∧
      (∀ t : Nat, t < 32 →
        (-128 : Int) ≤ (fun t => if t < 2 then (127 : Int) else 0) t ∧
          (fun t => if t < 2 then (127 : Int) else 0) t ≤ 127) ∧
      AffineTransform.PropagateAVX2Entry (AffineTransform.kPaddedInputDimensions 32)
          (fun t => if t < 2 then (127 : Int) else 0) 0
          (fun t => if t < 2 then (255 : Int) else 0) 0 ≠
        AffineTransform.PropagateScalarEntry 32
          (AffineTransform.kPaddedInputDimensions 32)
          (fun t => if t < 2 then (127 : Int) else 0) 0
          (fun t => if t < 2 then (255 : Int) else 0) 0 := by
  refine ⟨by decide, by decide, by decide⟩

/-- C1 (amended): the SIMD kernels agree bit-for-bit with the portable scalar
loop on the restricted valid-input range in which every activation byte is at
most 127 (so no maddubs saturation, no NEON sign reinterpretation and no NEON
int16 wrap can occur), with int8 weights, int32 bias, and I1 zero padding of
both the input and the weight row. -/
theorem c1_kernel_equivalence_amended (inputDims : Nat) (weights : Nat → Int)
    (bias : Int) (input : Nat → Int) (i : Nat)
    (hb1 : -2147483648 ≤ bias) (hb2 : bias < 2147483648)
    (hx : ∀ j, j < AffineTransform.kPaddedInputDimensions inputDims →
      0 ≤ input j ∧ input j ≤ 127)
    (hw : ∀ t, t < AffineTransform.kPaddedInputDimensions inputDims →
      -128 ≤ weights (i * AffineTransform.kPaddedInputDimensions inputDims + t) ∧
        weights (i * AffineTransform.kPaddedInputDimensions inputDims + t) ≤ 127)
    (hxpad : ∀ j, inputDims ≤ j →
      j < AffineTransform.kPaddedInputDimensions inputDims → input j = 0)
    (_hwpad : ∀ j, inputDims ≤ j →
      j < AffineTransform.kPaddedInputDimensions inputDims →
      weights (i * AffineTransform.kPaddedInputDimensions inputDims + j) = 0) :
    AffineTransform.PropagateAVX2Entry (AffineTransform.kPaddedInputDimensions inputDims)
        weights bias input i =
      AffineTransform.PropagateScalarEntry inputDims
        (AffineTransform.kPaddedInputDimensions inputDims) weights bias input i ∧
    AffineTransform.PropagateSSSE3Entry (AffineTransform.kPaddedInputDimensions inputDims)
        weights bias input i =
      AffineTransform.PropagateScalarEntry inputDims
        (AffineTransform.kPaddedInputDimensions inputDims) weights bias input i ∧
    AffineTransform.PropagateARMEntry (AffineTransform.kPaddedInputDimensions inputDims)
        weights bias input i =
      AffineTransform.PropagateScalarEntry inputDims
        (AffineTransform.kPaddedInputDimensions inputDims) weights bias input i := by
  have h32 : 32 ∣ AffineTransform.kPaddedInputDimensions inputDims :=
    CeilToMultiple_dvd inputDims kMaxSimdWidth
  have h16 : 16 ∣ AffineTransform.kPaddedInputDimensions inputDims :=
    dvd_trans (by norm_num) h32
  have h2 : 2 ∣ AffineTransform.kPaddedInputDimensions inputDims :=
    dvd_trans (by norm_num) h32
  have hple := inputDims_le_padded inputDims
  have hbridge : ∑ j ∈ Finset.range (AffineTransform.kPaddedInputDimensions inputDims),
      input j * weights (i * AffineTransform.kPaddedInputDimensions inputDims + j) =
      ∑ j ∈ Finset.range inputDims,
        weights (i * AffineTransform.kPaddedInputDimensions inputDims + j) * input j := by
    rw [sum_range_eq_of_padding
      (fun j => input j * weights (i * AffineTransform.kPaddedInputDimensions inputDims + j))
      inputDims (AffineTransform.kPaddedInputDimensions inputDims) hple
      (fun j h1 h2 => by simp [hxpad j h1 h2])]
    exact Finset.sum_congr rfl fun j hj => mul_comm _ _
  have hsat : ∑ t ∈ Finset.range (AffineTransform.kPaddedInputDimensions inputDims / 2),
      AffineTransform.satPair input
        (fun u => weights (i * AffineTransform.kPaddedInputDimensions inputDims + u)) t =
      ∑ j ∈ Finset.range (AffineTransform.kPaddedInputDimensions inputDims),
        input j * weights (i * AffineTransform.kPaddedInputDimensions inputDims + j) :=
    satsum_eq_prodsum (AffineTransform.kPaddedInputDimensions inputDims) input
      (fun u => weights (i * AffineTransform.kPaddedInputDimensions inputDims + u))
      h2 hx hw
  have hscal := scalar_entry_eq_sum inputDims
    (AffineTransform.kPaddedInputDimensions inputDims) weights bias input i hb1 hb2
  refine ⟨?_, ?_, ?_⟩
  · rw [avx2_entry_satform _ weights bias input i hb1 hb2 h32, hsat, hbridge, hscal]
  · rw [ssse3_entry_satform _ weights bias input i hb1 hb2 h16, hsat, hbridge, hscal]
  · rw [arm_entry_eq_sum _ weights bias input i hb1 hb2 h16 hx hw, hbridge, hscal]

/-- C1 witness for the amended equivalence: a 32-input stage with all-ones
weights and inputs and bias 7, on which all three kernels are proved equal to
the scalar loop by the amended theorem. -/
theorem c1_kernel_equivalence_amended_witness :
    (-2147483648 : Int) ≤ 7 ∧ (7 : Int) < 2147483648 ∧
      (AffineTransform.PropagateAVX2Entry (AffineTransform.kPaddedInputDimensions 32)
          (fun _ => 1) 7 (fun _ => 1) 0 =
        AffineTransform.PropagateScalarEntry 32
          (AffineTransform.kPaddedInputDimensions 32) (fun _ => 1) 7 (fun _ => 1) 0 ∧
      AffineTransform.PropagateSSSE3Entry (AffineTransform.kPaddedInputDimensions 32)
          (fun _ => 1) 7 (fun _ => 1) 0 =
        AffineTransform.PropagateScalarEntry 32
          (AffineTransform.kPaddedInputDimensions 32) (fun _ => 1) 7 (fun _ => 1) 0 ∧
      AffineTransform.PropagateARMEntry (AffineTransform.kPaddedInputDimensions 32)
          (fun _ => 1) 7 (fun _ => 1) 0 =
        AffineTransform.PropagateScalarEntry 32
          (AffineTransform.kPaddedInputDimensions 32) (fun _ => 1) 7 (fun _ => 1) 0) := by
  refine ⟨by decide, by decide, ?_⟩
  exact c1_kernel_equivalence_amended 32 (fun _ => 1) 7 (fun _ => 1) 0
    (by decide) (by decide)
    (by intro j hj; norm_num)
    (by intro t ht; norm_num)
    (fun j h1 h2 => absurd h2 (by
      rw [show AffineTransform.kPaddedInputDimensions 32 = 32 from rfl]; omega))
    (fun j h1 h2 => absurd h2 (by
      rw [show AffineTransform.kPaddedInputDimensions 32 = 32 from rfl]; omega))

/-- Little-endian byte k of the int32 value v, as it lands in memory when the
kernel stores output[i]. -/
def int32Byte (v : Int) (k : Nat) : Int :=
  ((v.emod 4294967296).toNat / 2 ^ (8 * k)) % 256

namespace AffineTransform

/-- The stage's own writes during Propagate (lines 68 and 141): for every
i below kOutputDimensions the loop stores output[i], an int32 occupying the
4 bytes at offset 4 i from the buffer base. -/
def writeOutputs (outputDims : Nat) (vals : Nat → Int) (buf : Nat → Int) : Nat → Int :=
  (List.range outputDims).foldl
    (fun b i => fun a =>
      if 4 * i ≤ a ∧ a < 4 * i + 4 then int32Byte (vals i) (a - 4 * i) else b a)
    buf

/-- The buffer dataflow of Propagate (lines 64-68 and 144-145): the upstream
stage propagates into the remainder of the buffer starting at offset
kSelfBufferSize (modelled as a transform of the re-based tail region, exactly
as the C code passes the pointer buffer + kSelfBufferSize); this stage then
writes its outputs at the buffer base and returns that base, offset 0 of its
own sub-region. The output values themselves are a parameter here; their
computation is covered by the kernel embeddings. -/
def PropagateFrame (outputDims selfBufferSize : Nat)
    (upstream : (Nat → Int) → (Nat → Int)) (vals : Nat → Int)
    (buf : Nat → Int) : (Nat → Int) × Nat :=
  let afterUpstream : Nat → Int := fun a =>
    if a < selfBufferSize then buf a
    else upstream (fun t => buf (selfBufferSize + t)) (a - selfBufferSize)
  (writeOutputs outputDims vals afterUpstream, 0)

end AffineTransform

lemma writeOutputs_outside (outputDims : Nat) (vals buf : Nat → Int) (a : Nat)
    (ha : 4 * outputDims ≤ a) :
    AffineTransform.writeOutputs outputDims vals buf a = buf a := by
  induction outputDims with
  | zero => rfl
  | succ n ih =>
    unfold AffineTransform.writeOutputs
    rw [List.range_succ, List.foldl_append, List.foldl_cons, List.foldl_nil]
    have hcond : ¬ (4 * n ≤ a ∧ a < 4 * n + 4) := by omega
    rw [if_neg hcond]
    exact ih (by omega)

lemma writeOutputs_inside (outputDims : Nat) (vals buf : Nat → Int) (i : Nat)
    (hi : i < outputDims) (k : Nat) (hk : k < 4) :
    AffineTransform.writeOutputs outputDims vals buf (4 * i + k) =
      int32Byte (vals i) k := by
  induction outputDims with
  | zero => omega
  | succ n ih =>
    unfold AffineTransform.writeOutputs
    rw [List.range_succ, List.foldl_append, List.foldl_cons, List.foldl_nil]
    by_cases hin : i = n
    · subst hin
      have hcond : 4 * i ≤ 4 * i + k ∧ 4 * i + k < 4 * i + 4 := by omega
      rw [if_pos hcond]
      congr 1
      omega
    · have hcond : ¬ (4 * n ≤ 4 * i + k ∧ 4 * i + k < 4 * n + 4) := by omega
      rw [if_neg hcond]
      exact ih (by omega)

/-- C7: Propagate writes only into its own sub-region, the
OutputDimensions * 4 bytes at the buffer base; the rest of the buffer from
offset kSelfBufferSize is handed to the upstream stage; every byte outside the
stage's own write range is unmodified by the stage's own writes (bytes between
4 * OutputDimensions and kSelfBufferSize keep their original contents, bytes
from kSelfBufferSize on hold exactly what the upstream transform produced);
and the returned pointer is the base of the stage's own sub-region. -/
theorem c7_buffer_frame (outputDims selfBufferSize : Nat)
    (upstream : (Nat → Int) → (Nat → Int)) (vals buf : Nat → Int)
    (hsize : 4 * outputDims ≤ selfBufferSize) :
    (∀ i, i < outputDims → ∀ k, k < 4 →
      (AffineTransform.PropagateFrame outputDims selfBufferSize upstream vals buf).1
        (4 * i + k) = int32Byte (vals i) k) ∧
      (∀ a, 4 * outputDims ≤ a → a < selfBufferSize →
        (AffineTransform.PropagateFrame outputDims selfBufferSize upstream vals buf).1 a =
          buf a) ∧
      (∀ a, selfBufferSize ≤ a →
        (AffineTransform.PropagateFrame outputDims selfBufferSize upstream vals buf).1 a =
          upstream (fun t => buf (selfBufferSize + t)) (a - selfBufferSize)) ∧
      (AffineTransform.PropagateFrame outputDims selfBufferSize upstream vals buf).2 = 0 := by
  refine ⟨?_, ?_, ?_, rfl⟩
  · intro i hi k hk
    exact writeOutputs_inside outputDims vals _ i hi k hk
  · intro a h1 h2
    simp only [AffineTransform.PropagateFrame]
    rw [writeOutputs_outside outputDims vals _ a h1]
    exact if_pos h2
  · intro a h1
    simp only [AffineTransform.PropagateFrame]
    rw [writeOutputs_outside outputDims vals _ a (by omega)]
    exact if_neg (by omega)

/-- C7 witness: a one-output stage with a 64-byte sub-buffer and an identity
upstream transform writes the bytes of 5 at the base, leaves byte 10
untouched, exposes the upstream result at offset 64, and returns offset 0. -/
theorem c7_buffer_frame_witness :
    4 * 1 ≤ 64 ∧
      ((∀ i, i < 1 → ∀ k, k < 4 →
        (AffineTransform.PropagateFrame 1 64 (fun b => b) (fun _ => 5) (fun _ => 9)).1
          (4 * i + k) = int32Byte 5 k) ∧
      (∀ a, 4 * 1 ≤ a → a < 64 →
        (AffineTransform.PropagateFrame 1 64 (fun b => b) (fun _ => 5) (fun _ => 9)).1 a = 9) ∧
      (∀ a, 64 ≤ a →
        (AffineTransform.PropagateFrame 1 64 (fun b => b) (fun _ => 5) (fun _ => 9)).1 a =
          (fun b => b) (fun t => (fun _ => (9 : Int)) (64 + t)) (a - 64)) ∧
      (AffineTransform.PropagateFrame 1 64 (fun b => b) (fun _ => 5) (fun _ => 9)).2 = 0) :=
  ⟨by decide,
    c7_buffer_frame 1 64 (fun b => b) (fun _ => 5) (fun _ => 9) (by decide)⟩
